import Mathlib

/-!
Shallow embedding of the DianaNites/uuid crate (src/lib.rs), a UUID codec:
a 16-byte identifier with variant/version inspection, mixed-endian byte
reordering, version-4 generation, and a text codec (canonical and URN forms).

Conventions of the embedding:
* A Rust `u8` byte is a `Nat`; byte sequences (`[u8; 16]`, `&str` contents,
  `&[u8]` buffers) are `List Nat` of byte values.  Machine-width overflow is
  modelled with explicit bounds (`< 2 ^ w`) and `%`/`/` arithmetic.
* Fallible operations return `Option`; a Rust panic is `none` (for the
  formatter) or the dedicated `ParseOut.panic` outcome (for the parser).
* `&str` values are UTF-8 byte lists; Rust string slicing `&s[9..]` checks
  `is_char_boundary`, which for an in-range index means the byte at that
  index is not a UTF-8 continuation byte.
-/

set_option maxRecDepth 8192

namespace UuidRs

/-- Rust enum `Variant` (lib.rs lines 46-58). -/
inductive Variant where
  | Ncs : Variant
  | Rfc4122 : Variant
  | Microsoft : Variant
  | Reserved : Variant
deriving DecidableEq, Repr

/-- Rust enum `Version` (lib.rs lines 62-80). -/
inductive Version where
  | Time : Version
  | Dce : Version
  | Md5 : Version
  | Random : Version
  | Sha1 : Version
  | Nil : Version
deriving DecidableEq, Repr

/-- Outcome of `<Uuid as FromStr>::from_str`: an unrecoverable panic, the
recoverable `ParseUuidError`, or a successfully parsed 16-byte UUID. -/
inductive ParseOut where
  | panic : ParseOut
  | err : ParseOut
  | ok : List Nat → ParseOut
deriving DecidableEq, Repr

/-- `Uuid::nil()`: the all-zero UUID (lib.rs line 98). -/
def uuidNil : List Nat := List.replicate 16 0

/-- ASCII bytes of the URN header text (the `UUID_URN` constant, lib.rs
line 13): the nine bytes of the header string. -/
def urnBytes : List Nat := [117, 114, 110, 58, 117, 117, 105, 100, 58]

/-- `Uuid::variant` restricted to the byte it reads (lib.rs lines 143-151).
The source takes `self.0[8].bits::<Msb0>()[..3]` and matches the three most
significant bits, MSB first; bit k of the Msb0 view of a byte is `testBit
(7 - k)`. -/
def variantOfByte (b : Nat) : Variant :=
  match b.testBit 7, b.testBit 6, b.testBit 5 with
  | true, true, true => Variant.Reserved
  | true, true, false => Variant.Microsoft
  | true, false, _ => Variant.Rfc4122
  | false, _, _ => Variant.Ncs

/-- `Uuid::variant` (lib.rs lines 143-151): classifies byte 8. -/
def variant (u : List Nat) : Variant :=
  variantOfByte (u.getD 8 0)

/-- `Uuid::version` restricted to the byte it reads (lib.rs lines 158-169).
The source matches the four most significant bits of byte 6, MSB first; the
ten unlisted patterns hit the `panic` arm, modelled as `none`. -/
def versionOfByte (b : Nat) : Option Version :=
  match b.testBit 7, b.testBit 6, b.testBit 5, b.testBit 4 with
  | false, false, false, false => some Version.Nil
  | false, false, false, true => some Version.Time
  | false, false, true, false => some Version.Dce
  | false, false, true, true => some Version.Md5
  | false, true, false, false => some Version.Random
  | false, true, false, true => some Version.Sha1
  | _, _, _, _ => none

/-- `Uuid::version` (lib.rs lines 158-169): classifies byte 6, panicking
(`none`) on the ten unrecognized 4-bit patterns. -/
def version (u : List Nat) : Option Version :=
  versionOfByte (u.getD 6 0)

/-- Index map of the mixed-endian transform (lib.rs lines 119-135): the
source reverses the byte ranges [0,4), [4,6) and [6,8) in place and leaves
[8,16) alone.  Reversing a range [a,b) sends position i to a + b - 1 - i,
so output position i reads input position `meIdx i`. -/
def meIdx (i : Nat) : Nat :=
  if i < 4 then 3 - i
  else if i < 6 then 9 - i
  else if i < 8 then 13 - i
  else i

/-- `Uuid::from_bytes_me` (lib.rs lines 119-124): reverse the three ranges. -/
def from_bytes_me (b : List Nat) : List Nat :=
  List.ofFn fun i : Fin 16 => b.getD (meIdx i.1) 0

/-- `Uuid::to_bytes_me` (lib.rs lines 129-135): identical reversal of the
three ranges, applied to the bytes of the UUID. -/
def to_bytes_me (b : List Nat) : List Nat :=
  List.ofFn fun i : Fin 16 => b.getD (meIdx i.1) 0

/-- `Uuid::new_v4` (lib.rs lines 219-230) as a function of the 16 random
bytes drawn from `rand::random`.  On byte 8 the source clears the two most
significant bits (`b % 64`) and sets the top one (`+ 128`), giving the
`10xxxxxx` variant pattern; on byte 6 it clears the top four bits
(`b % 16`) and sets bit 1 of the Msb0 view (`+ 64`), giving the `0100`
version pattern. -/
def new_v4 (random : List Nat) : List Nat :=
  let b1 := random.set 8 (random.getD 8 0 % 64 + 128)
  b1.set 6 (b1.getD 6 0 % 16 + 64)

/-- ASCII code of the lowercase hex digit for `n < 16` (digits then
letters a-f), as produced by the Rust `{:x}` format. -/
def hexDigitChar (n : Nat) : Nat :=
  if n < 10 then 48 + n else 87 + n

/-- The `w` lowercase hex digits of `n`, fixed width, most significant
first (for `n < 16 ^ w`). -/
def hexFixed (w n : Nat) : List Nat :=
  (List.range w).map fun i => hexDigitChar (n / 16 ^ (w - 1 - i) % 16)

/-- Drop leading ASCII zeros but keep the last digit. -/
def trimHex : List Nat → List Nat
  | [] => [48]
  | [d] => [d]
  | d :: rest => if d = 48 then trimHex rest else d :: rest

/-- The Rust `{:x}` format specifier applied to a `w`-hex-digit machine
integer: minimal-width lowercase hex, i.e. the fixed-width digits with
leading zeros trimmed (zero prints as a single `0`).  Note `{:x}` does NOT
zero-pad: padding would require `{:08x}` and friends. -/
def hexMin (w n : Nat) : List Nat :=
  trimHex (hexFixed w n)

/-- The bytes written by the `write!` in `Uuid::to_string` (lib.rs lines
192-197): the six fields are read big-endian from the byte array (lines
182-190) and printed with `{:x}-{:x}-{:x}-{:x}{:x}-{:x}`, so
`time_low` (u32, bytes 0-3), `time_mid` (u16, bytes 4-5),
`time_hi_and_version` (u16, bytes 6-7), then `clock_seq_hi_and_reserved`
and `clock_seq_low` (u8 each, bytes 8 and 9) with no separator between
them, then `node` (u64 from bytes 10-15 with two leading zero bytes). -/
def uuidChars (b : List Nat) : List Nat :=
  hexMin 8 (b.getD 0 0 * 2 ^ 24 + b.getD 1 0 * 2 ^ 16 + b.getD 2 0 * 2 ^ 8 + b.getD 3 0)
    ++ [45]
    ++ hexMin 4 (b.getD 4 0 * 2 ^ 8 + b.getD 5 0)
    ++ [45]
    ++ hexMin 4 (b.getD 6 0 * 2 ^ 8 + b.getD 7 0)
    ++ [45]
    ++ hexMin 2 (b.getD 8 0)
    ++ hexMin 2 (b.getD 9 0)
    ++ [45]
    ++ hexMin 16 (b.getD 10 0 * 2 ^ 40 + b.getD 11 0 * 2 ^ 32 + b.getD 12 0 * 2 ^ 24
        + b.getD 13 0 * 2 ^ 16 + b.getD 14 0 * 2 ^ 8 + b.getD 15 0)

/-- Is `b` a UTF-8 continuation byte (`10xxxxxx`)? -/
def contB (b : Nat) : Bool :=
  128 ≤ b && b < 192

/-- UTF-8 validity of a byte list, exactly the table enforced by
`core::str::from_utf8` (well-formed sequences only: no overlong forms, no
surrogates, max U+10FFFF). -/
def validUtf8 : List Nat → Bool
  | [] => true
  | b :: rest =>
    if b < 128 then validUtf8 rest
    else if 194 ≤ b && b ≤ 223 then
      match rest with
      | c1 :: r => contB c1 && validUtf8 r
      | [] => false
    else if b = 224 then
      match rest with
      | c1 :: c2 :: r => (160 ≤ c1 && c1 < 192) && contB c2 && validUtf8 r
      | _ => false
    else if 225 ≤ b && b ≤ 236 then
      match rest with
      | c1 :: c2 :: r => contB c1 && contB c2 && validUtf8 r
      | _ => false
    else if b = 237 then
      match rest with
      | c1 :: c2 :: r => (128 ≤ c1 && c1 < 160) && contB c2 && validUtf8 r
      | _ => false
    else if 238 ≤ b && b ≤ 239 then
      match rest with
      | c1 :: c2 :: r => contB c1 && contB c2 && validUtf8 r
      | _ => false
    else if b = 240 then
      match rest with
      | c1 :: c2 :: c3 :: r => (144 ≤ c1 && c1 < 192) && contB c2 && contB c3 && validUtf8 r
      | _ => false
    else if 241 ≤ b && b ≤ 243 then
      match rest with
      | c1 :: c2 :: c3 :: r => contB c1 && contB c2 && contB c3 && validUtf8 r
      | _ => false
    else if b = 244 then
      match rest with
      | c1 :: c2 :: c3 :: r => (128 ≤ c1 && c1 < 144) && contB c2 && contB c3 && validUtf8 r
      | _ => false
    else false

/-- `Uuid::to_string` (lib.rs lines 179-199).  Panics (`none`) when the
buffer is under 36 bytes (the `assert!` on line 180), when the
`BytesWrapper` write fails for lack of room (the `expect` on line 197 --
unreachable once the assert passed, kept for faithfulness), or when the
final `from_utf8` of the WHOLE buffer fails (line 198).  On success the
returned string view is `buf.into_inner()`, i.e. the entire buffer: the
written characters followed by the untouched tail of the buffer. -/
def to_string (u : List Nat) (buf : List Nat) : Option (List Nat) :=
  if buf.length < 36 then none
  else
    let w := uuidChars u
    if buf.length < w.length then none
    else
      let final := w ++ buf.drop w.length
      if validUtf8 final then some final else none

/-- `Uuid::to_urn` (lib.rs lines 209-214).  Panics (`none`) when the buffer
is under 45 bytes; otherwise copies the URN header into bytes 0-8, runs
`to_string` on the rest of the buffer (whose result may itself panic), and
returns `from_utf8` of the whole buffer. -/
def to_urn (u : List Nat) (buf : List Nat) : Option (List Nat) :=
  if buf.length < 45 then none
  else
    match to_string u (buf.drop 9) with
    | none => none
    | some s => if validUtf8 (urnBytes ++ s) then some (urnBytes ++ s) else none

/-- Value of an ASCII byte as a hex digit, as accepted by
`char::to_digit(16)`: `0-9`, `a-f` and `A-F`, case-insensitive. -/
def hexVal (c : Nat) : Option Nat :=
  if 48 ≤ c ∧ c ≤ 57 then some (c - 48)
  else if 97 ≤ c ∧ c ≤ 102 then some (c - 87)
  else if 65 ≤ c ∧ c ≤ 70 then some (c - 55)
  else none

/-- One step of the `from_str_radix` digit loop: fail if the accumulator
already failed or the byte is not a hex digit, else shift in the digit. -/
def hexStep (acc : Option Nat) (c : Nat) : Option Nat :=
  match acc, hexVal c with
  | some a, some d => some (a * 16 + d)
  | _, _ => none

/-- Digit loop of `from_str_radix` over the remaining bytes. -/
def hexNatGo : Option Nat → List Nat → Option Nat
  | acc, [] => acc
  | acc, c :: rest => hexNatGo (hexStep acc c) rest

/-- Unsigned base-16 digit-string value, `none` on any non-hex byte.  (The
Rust loop returns at the first bad digit; folding the failure through is
the same final result.) -/
def hexNat (l : List Nat) : Option Nat :=
  hexNatGo (some 0) l

/-- `uN::from_str_radix(s, 16)` for an unsigned integer of `w` bits, on the
byte list of `s`.  Per the core library: an optional single leading `+` or
`-` sign, then at least one digit; all digits must be hex; for unsigned
types a `-` sign only yields a value when that value is zero (each
`checked_sub` step must not underflow); a value that does not fit in `w`
bits is a positive overflow error.  The incremental `checked_mul` /
`checked_add` overflow test is equivalent to checking the final value,
because the accumulated value never decreases along the loop. -/
def fromStrRadix16 (w : Nat) (s : List Nat) : Option Nat :=
  match s with
  | [] => none
  | c :: rest =>
    if c = 43 then
      if rest = [] then none
      else
        match hexNat rest with
        | none => none
        | some v => if v < 2 ^ w then some v else none
    else if c = 45 then
      if rest = [] then none
      else
        match hexNat rest with
        | none => none
        | some v => if v = 0 then some 0 else none
    else
      match hexNat (c :: rest) with
      | none => none
      | some v => if v < 2 ^ w then some v else none

/-- `uN::to_be_bytes` of a value, as `n` big-endian bytes. -/
def beBytes (n v : Nat) : List Nat :=
  (List.range n).map fun i => v / 2 ^ (8 * (n - 1 - i)) % 256

/-- Copy `bs` into the buffer at absolute position `pos`
(`buf[pos..][..bs.length].copy_from_slice(bs)`). -/
def writeAt (buf : List Nat) (pos : Nat) (bs : List Nat) : List Nat :=
  buf.take pos ++ bs ++ buf.drop (pos + bs.length)

/-- `str::split` on a separator byte, Rust semantics: every occurrence of
the separator splits, empty pieces included, and the empty string yields
one empty piece. -/
def splitDash : List Nat → List (List Nat)
  | [] => [[]]
  | c :: rest =>
    if c = 45 then [] :: splitDash rest
    else
      match splitDash rest with
      | [] => [[c]]
      | g :: gs => (c :: g) :: gs

/-- The group loop of `from_str` (lib.rs lines 245-272).  `pos` is the
absolute write position in the 16-byte output: the Rust code keeps a
shrinking `&mut [u8]` slice, advancing it by 4 after an 8-digit group and
by 2 after a 4-digit group, and NOT advancing it after a 12-digit group.
Each arm first takes the sub-slice `buf[..k]` (the method receiver, so an
out-of-bounds slice panics before the radix parse is examined), then fails
with `ParseUuidError` when `from_str_radix` fails, writing the big-endian
bytes otherwise; a 12-digit group writes the low 6 of the 8 `u64` bytes.
A group of any other length is an error. -/
def parseGroups : List (List Nat) → Nat → List Nat → ParseOut
  | [], _, buf => ParseOut.ok buf
  | g :: rest, pos, buf =>
    if g.length = 8 then
      if pos + 4 ≤ 16 then
        match fromStrRadix16 32 g with
        | none => ParseOut.err
        | some v => parseGroups rest (pos + 4) (writeAt buf pos (beBytes 4 v))
      else ParseOut.panic
    else if g.length = 4 then
      if pos + 2 ≤ 16 then
        match fromStrRadix16 16 g with
        | none => ParseOut.err
        | some v => parseGroups rest (pos + 2) (writeAt buf pos (beBytes 2 v))
      else ParseOut.panic
    else if g.length = 12 then
      if pos + 6 ≤ 16 then
        match fromStrRadix16 64 g with
        | none => ParseOut.err
        | some v => parseGroups rest pos (writeAt buf pos ((beBytes 8 v).drop 2))
      else ParseOut.panic
    else ParseOut.err

/-- `from_str` after the optional URN strip (lib.rs lines 240-273): reject
any length other than 36, then run the group loop over the dash-separated
groups, writing into `[0u8; 16]`. -/
def fromStrBody (s : List Nat) : ParseOut :=
  if s.length ≠ 36 then ParseOut.err
  else parseGroups (splitDash s) 0 (List.replicate 16 0)

/-- `<Uuid as FromStr>::from_str` (lib.rs lines 236-274) on the UTF-8 bytes
of the input.  When the byte length is exactly 45 the source re-slices
`s = &s[UUID_URN.len()..]` unconditionally; `&str` slicing panics when
byte index 9 is not a char boundary, i.e. when byte 9 is a UTF-8
continuation byte.  The first nine bytes are never compared with the URN
header. -/
def fromStrRs (s : List Nat) : ParseOut :=
  if s.length = 45 then
    if 128 ≤ s.getD 9 0 ∧ s.getD 9 0 < 192 then ParseOut.panic
    else fromStrBody (s.drop 9)
  else fromStrBody s

/-- A dash group the loop body consumes without error: correct length and
a hex value the radix parse accepts. -/
def goodGroup (g : List Nat) : Prop :=
  (g.length = 8 ∧ fromStrRadix16 32 g ≠ none)
    ∨ (g.length = 4 ∧ fromStrRadix16 16 g ≠ none)
    ∨ (g.length = 12 ∧ fromStrRadix16 64 g ≠ none)

/-- Cost of a group list for the no-overflow argument: each group charges
its length plus one (its separator). -/
def sumCost (gs : List (List Nat)) : Nat :=
  (gs.map fun g => g.length + 1).sum

/-- The spec table for `version`: the 4-bit pattern of the top of byte 6,
MSB first, as a number `p`; the six named patterns map to their versions
and the other ten patterns to the fatal fault (`none`). -/
def versionSpecTable (p : Nat) : Option Version :=
  if p = 0 then some Version.Nil
  else if p = 1 then some Version.Time
  else if p = 2 then some Version.Dce
  else if p = 3 then some Version.Md5
  else if p = 4 then some Version.Random
  else if p = 5 then some Version.Sha1
  else none

/-- The spec table for `variant`: the 3-bit pattern of the top of byte 8,
MSB first, as a number `p`: `111` is Reserved, `110` Microsoft, `10x`
Rfc4122 and `0xx` Ncs. -/
def variantSpecTable (p : Nat) : Variant :=
  if p = 7 then Variant.Reserved
  else if p = 6 then Variant.Microsoft
  else if 4 ≤ p then Variant.Rfc4122
  else Variant.Ncs

/-- The 16 test bytes `RAW` from the crate test module. -/
def rawBytes : List Nat :=
  [102, 42, 167, 199, 117, 152, 77, 86, 139, 204, 167, 44, 48, 249, 152, 162]

/-- ASCII bytes of the canonical text of `rawBytes`
(the `UUID_V4` test constant). -/
def rawCanon : List Nat :=
  [54, 54, 50, 97, 97, 55, 99, 55, 45, 55, 53, 57, 56, 45, 52, 100, 53, 54, 45,
   56, 98, 99, 99, 45, 97, 55, 50, 99, 51, 48, 102, 57, 57, 56, 97, 50]

/-- The 10 bytes `to_string` actually writes for the nil UUID: the text
`0-0-0-00-0` (each field minimal-width, no zero padding). -/
def nilWritten : List Nat :=
  [48, 45, 48, 45, 48, 45, 48, 48, 45, 48]

/-- What `to_string(nil)` returns over a zeroed 36-byte buffer: the 10
written bytes followed by the 26 untouched zero bytes of the buffer. -/
def nilCanonOut : List Nat :=
  nilWritten ++ List.replicate 26 0

/-- What `to_urn(nil)` returns over a zeroed 45-byte buffer. -/
def nilUrnOut : List Nat :=
  urnBytes ++ nilCanonOut

/-- A valid 45-byte UTF-8 string whose byte 9 is a continuation byte:
eight `a` bytes, the two-byte sequence 195 169 (U+00E9) straddling index
9, then thirty-five more `a` bytes. -/
def c3BadInput : List Nat :=
  List.replicate 8 97 ++ [195, 169] ++ List.replicate 35 97

/-- ASCII bytes of the text `not-a-uuid`. -/
def notAUuid : List Nat :=
  [110, 111, 116, 45, 97, 45, 117, 117, 105, 100]

/-- ASCII bytes of a 36-byte input whose first group is `+662aa7c`: the
`+` is outside `[0-9a-fA-F]` yet `from_str_radix` accepts it. -/
def plusInput : List Nat :=
  [43, 54, 54, 50, 97, 97, 55, 99, 45, 55, 53, 57, 56, 45, 52, 100, 53, 54, 45,
   56, 98, 99, 99, 45, 97, 55, 50, 99, 51, 48, 102, 57, 57, 56, 97, 50]

/-- The bytes `from_str` produces for `plusInput`: time_low parses to
0x0662aa7c, the remaining fields match `rawBytes`. -/
def plusParsed : List Nat :=
  [6, 98, 170, 124, 117, 152, 77, 86, 139, 204, 167, 44, 48, 249, 152, 162]

/-- A 36-byte input with a 7-byte first group (and a 5-byte second). -/
def badLen36 : List Nat :=
  [54, 54, 50, 97, 97, 55, 99, 45, 55, 53, 57, 56, 48, 45, 52, 100, 53, 54, 45,
   56, 98, 99, 99, 45, 97, 55, 50, 99, 51, 48, 102, 57, 57, 56, 97, 50]

/-- A 36-byte input whose first group holds the non-hex byte `g` (103) at
index 6. -/
def badChar36 : List Nat :=
  [54, 54, 50, 97, 97, 55, 103, 55, 45, 55, 53, 57, 56, 45, 52, 100, 53, 54, 45,
   56, 98, 99, 99, 45, 97, 55, 50, 99, 51, 48, 102, 57, 57, 56, 97, 50]

/-- A 45-byte input with nine `?` bytes (not the URN header) before the
canonical text of `rawBytes`. -/
def junkUrn : List Nat :=
  List.replicate 9 63 ++ rawCanon

/-- Sixteen 255 bytes, a concrete random draw for `new_v4`. -/
def allFF : List Nat := List.replicate 16 255

/-- Concrete input for the version table: byte 6 is 111 (0x6F), whose top
4-bit pattern 6 is one of the ten unrecognized patterns. -/
def verInput : List Nat := [0, 0, 0, 0, 0, 0, 111, 0, 0, 0, 0, 0, 0, 0, 0, 0]

/-- Concrete input for the variant table: byte 8 is 255, pattern 111. -/
def varInput : List Nat := [0, 0, 0, 0, 0, 0, 0, 0, 255, 0, 0, 0, 0, 0, 0, 0]

end UuidRs

namespace UuidRs

/-! ### Helper lemmas -/

theorem len16_decomp (b : List Nat) (h : b.length = 16) :
    ∃ a0 a1 a2 a3 a4 a5 a6 a7 a8 a9 a10 a11 a12 a13 a14 a15,
      b = [a0, a1, a2, a3, a4, a5, a6, a7, a8, a9, a10, a11, a12, a13, a14, a15] :=
  match b, h with
  | [a0, a1, a2, a3, a4, a5, a6, a7, a8, a9, a10, a11, a12, a13, a14, a15], _ =>
    ⟨a0, a1, a2, a3, a4, a5, a6, a7, a8, a9, a10, a11, a12, a13, a14, a15, rfl⟩

theorem splitDash_ne_nil (s : List Nat) : splitDash s ≠ [] := by
  cases s with
  | nil => simp [splitDash]
  | cons c rest =>
    simp only [splitDash]
    by_cases hc : c = 45
    · simp [hc]
    · rw [if_neg hc]
      cases h : splitDash rest <;> simp

theorem sumCost_cons (g : List Nat) (gs : List (List Nat)) :
    sumCost (g :: gs) = g.length + 1 + sumCost gs := by
  simp [sumCost]

theorem sumCost_splitDash (s : List Nat) : sumCost (splitDash s) = s.length + 1 := by
  induction s with
  | nil => simp [splitDash, sumCost]
  | cons c rest ih =>
    simp only [splitDash]
    by_cases hc : c = 45
    · rw [if_pos hc, sumCost_cons]
      simp [ih]
      omega
    · rw [if_neg hc]
      cases h : splitDash rest with
      | nil => exact absurd h (splitDash_ne_nil rest)
      | cons g gs =>
        rw [h, sumCost_cons] at ih
        rw [sumCost_cons]
        simp only [List.length_cons]
        omega

theorem sep_not_in_splitDash (s : List Nat) :
    ∀ g ∈ splitDash s, 45 ∉ g := by
  induction s with
  | nil =>
    intro g hg
    simp [splitDash] at hg
    simp [hg]
  | cons c rest ih =>
    intro g hg
    simp only [splitDash] at hg
    by_cases hc : c = 45
    · rw [if_pos hc] at hg
      rcases List.mem_cons.1 hg with h | h
      · simp [h]
      · exact ih g h
    · rw [if_neg hc] at hg
      cases h : splitDash rest with
      | nil => exact absurd h (splitDash_ne_nil rest)
      | cons g0 gs =>
        rw [h] at hg
        rcases List.mem_cons.1 hg with h1 | h1
        · subst h1
          intro hmem
          rcases List.mem_cons.1 hmem with h2 | h2
          · exact hc h2.symm
          · exact ih g0 (h ▸ List.mem_cons_self g0 gs) h2
        · exact ih g (h ▸ List.mem_cons_of_mem g0 h1)

theorem hexStep_of_bad (acc : Option Nat) (c : Nat) (h : hexVal c = none) :
    hexStep acc c = none := by
  cases acc <;> simp [hexStep, h]

theorem hexNatGo_none (l : List Nat) : hexNatGo none l = none := by
  induction l with
  | nil => rfl
  | cons c rest ih =>
    simp only [hexNatGo]
    have : hexStep none c = none := by
      cases h : hexVal c <;> simp [hexStep]
    rw [this, ih]

theorem hexNatGo_of_bad (l : List Nat) (c : Nat) (hc : c ∈ l) (h : hexVal c = none) :
    ∀ acc, hexNatGo acc l = none := by
  induction l with
  | nil => exact absurd hc (List.not_mem_nil c)
  | cons d rest ih =>
    intro acc
    rcases List.mem_cons.1 hc with h1 | h1
    · subst h1
      simp only [hexNatGo]
      rw [hexStep_of_bad acc c h, hexNatGo_none]
    · simp only [hexNatGo]
      exact ih h1 _

theorem hexNat_of_bad (l : List Nat) (c : Nat) (hc : c ∈ l) (h : hexVal c = none) :
    hexNat l = none :=
  hexNatGo_of_bad l c hc h _

theorem getD_mem_of_lt (l : List Nat) (i : Nat) (h : i < l.length) :
    l.getD i 0 ∈ l := by
  rw [List.getD_eq_getElem l 0 h]
  exact List.getElem_mem h

theorem fromStrRadix16_none_of_bad (w : Nat) (g : List Nat) (hs : 45 ∉ g)
    (i : Nat) (hi : i < g.length) (hbad : hexVal (g.getD i 0) = none)
    (hexc : i ≠ 0 ∨ g.getD i 0 ≠ 43) : fromStrRadix16 w g = none := by
  cases g with
  | nil => simp at hi
  | cons c rest =>
    simp only [fromStrRadix16]
    by_cases hc : c = 43
    · rw [if_pos hc]
      have hi0 : i ≠ 0 := by
        rcases hexc with h | h
        · exact h
        · intro h0
          subst h0
          exact h (by simp [hc])
      obtain ⟨j, rfl⟩ : ∃ j, i = j + 1 := ⟨i - 1, by omega⟩
      have hj : j < rest.length := by
        simp only [List.length_cons] at hi
        omega
      have hbad2 : hexVal (rest.getD j 0) = none := hbad
      have hmem : rest.getD j 0 ∈ rest := getD_mem_of_lt rest j hj
      have hne : rest ≠ [] := by
        intro h0
        rw [h0] at hj
        simp at hj
      rw [if_neg hne, hexNat_of_bad rest _ hmem hbad2]
    · rw [if_neg hc]
      have hc45 : c ≠ 45 := by
        intro h0
        exact hs (h0 ▸ List.mem_cons_self c rest)
      rw [if_neg hc45]
      have hmem : (c :: rest).getD i 0 ∈ c :: rest := getD_mem_of_lt _ i hi
      rw [hexNat_of_bad (c :: rest) _ hmem hbad]

theorem parseGroups_no_panic (gs : List (List Nat)) :
    ∀ pos buf P, pos ≤ 4 * P → 2 * pos + sumCost gs + P ≤ 37 →
      parseGroups gs pos buf ≠ ParseOut.panic := by
  induction gs with
  | nil =>
    intro pos buf P _ _
    simp [parseGroups]
  | cons g rest ih =>
    intro pos buf P hP hC
    rw [sumCost_cons] at hC
    simp only [parseGroups]
    by_cases h8 : g.length = 8
    · rw [if_pos h8]
      rw [h8] at hC
      rw [if_pos (by omega : pos + 4 ≤ 16)]
      cases hr : fromStrRadix16 32 g with
      | none => simp
      | some v => exact ih (pos + 4) _ (P + 1) (by omega) (by omega)
    · rw [if_neg h8]
      by_cases h4 : g.length = 4
      · rw [if_pos h4]
        rw [h4] at hC
        rw [if_pos (by omega : pos + 2 ≤ 16)]
        cases hr : fromStrRadix16 16 g with
        | none => simp
        | some v => exact ih (pos + 2) _ (P + 1) (by omega) (by omega)
      · rw [if_neg h4]
        by_cases h12 : g.length = 12
        · rw [if_pos h12]
          rw [h12] at hC
          rw [if_pos (by omega : pos + 6 ≤ 16)]
          cases hr : fromStrRadix16 64 g with
          | none => simp
          | some v => exact ih pos _ (P + 1) (by omega) (by omega)
        · rw [if_neg h12]
          simp

theorem parseGroups_of_bad (gs : List (List Nat)) :
    ∀ pos buf, (∃ g ∈ gs, ¬ goodGroup g) →
      parseGroups gs pos buf = ParseOut.err ∨ parseGroups gs pos buf = ParseOut.panic := by
  induction gs with
  | nil =>
    intro pos buf hb
    simp at hb
  | cons g rest ih =>
    intro pos buf hb
    rcases hb with ⟨g0, hg0, hbad⟩
    simp only [parseGroups]
    rcases List.mem_cons.1 hg0 with heq | hmem
    · subst heq
      by_cases h8 : g0.length = 8
      · rw [if_pos h8]
        by_cases hpos : pos + 4 ≤ 16
        · rw [if_pos hpos]
          cases hr : fromStrRadix16 32 g0 with
          | none => exact Or.inl rfl
          | some v =>
            exact absurd (Or.inl ⟨h8, by rw [hr]; exact Option.some_ne_none v⟩) hbad
        · rw [if_neg hpos]
          exact Or.inr rfl
      · rw [if_neg h8]
        by_cases h4 : g0.length = 4
        · rw [if_pos h4]
          by_cases hpos : pos + 2 ≤ 16
          · rw [if_pos hpos]
            cases hr : fromStrRadix16 16 g0 with
            | none => exact Or.inl rfl
            | some v =>
              exact absurd (Or.inr (Or.inl ⟨h4, by rw [hr]; exact Option.some_ne_none v⟩)) hbad
          · rw [if_neg hpos]
            exact Or.inr rfl
        · rw [if_neg h4]
          by_cases h12 : g0.length = 12
          · rw [if_pos h12]
            by_cases hpos : pos + 6 ≤ 16
            · rw [if_pos hpos]
              cases hr : fromStrRadix16 64 g0 with
              | none => exact Or.inl rfl
              | some v =>
                exact absurd (Or.inr (Or.inr ⟨h12, by rw [hr]; exact Option.some_ne_none v⟩)) hbad
            · rw [if_neg hpos]
              exact Or.inr rfl
          · rw [if_neg h12]
            exact Or.inl rfl
    · by_cases h8 : g.length = 8
      · rw [if_pos h8]
        by_cases hpos : pos + 4 ≤ 16
        · rw [if_pos hpos]
          cases hr : fromStrRadix16 32 g with
          | none => exact Or.inl rfl
          | some v => exact ih _ _ ⟨g0, hmem, hbad⟩
        · rw [if_neg hpos]
          exact Or.inr rfl
      · rw [if_neg h8]
        by_cases h4 : g.length = 4
        · rw [if_pos h4]
          by_cases hpos : pos + 2 ≤ 16
          · rw [if_pos hpos]
            cases hr : fromStrRadix16 16 g with
            | none => exact Or.inl rfl
            | some v => exact ih _ _ ⟨g0, hmem, hbad⟩
          · rw [if_neg hpos]
            exact Or.inr rfl
        · rw [if_neg h4]
          by_cases h12 : g.length = 12
          · rw [if_pos h12]
            by_cases hpos : pos + 6 ≤ 16
            · rw [if_pos hpos]
              cases hr : fromStrRadix16 64 g with
              | none => exact Or.inl rfl
              | some v => exact ih _ _ ⟨g0, hmem, hbad⟩
            · rw [if_neg hpos]
              exact Or.inr rfl
          · rw [if_neg h12]
            exact Or.inl rfl

theorem fromStrBody_err_of_bad (s : List Nat) (h : s.length = 36)
    (hbad : ∃ g ∈ splitDash s, ¬ goodGroup g) : fromStrBody s = ParseOut.err := by
  have hnp := parseGroups_no_panic (splitDash s) 0 (List.replicate 16 0) 0
    (by omega) (by rw [sumCost_splitDash, h])
  have hb := parseGroups_of_bad (splitDash s) 0 (List.replicate 16 0) hbad
  unfold fromStrBody
  rw [if_neg (by omega : ¬ s.length ≠ 36)]
  rcases hb with h1 | h2
  · exact h1
  · exact absurd h2 hnp

theorem fromStrRs_eq_body_of_len36 (s : List Nat) (h : s.length = 36) :
    fromStrRs s = fromStrBody s := by
  unfold fromStrRs
  rw [if_neg (by omega : ¬ s.length = 45)]

theorem versionOfByte_fin :
    ∀ b : Fin 256, versionOfByte b.1 = versionSpecTable (b.1 / 16) := by decide

theorem variantOfByte_fin :
    ∀ b : Fin 256, variantOfByte b.1 = variantSpecTable (b.1 / 32) := by decide

theorem versionOfByte_v4 :
    ∀ x : Fin 16, versionOfByte (x.1 + 64) = some Version.Random := by decide

theorem variantOfByte_v4 :
    ∀ x : Fin 64, variantOfByte (x.1 + 128) = Variant.Rfc4122 := by decide

end UuidRs

namespace UuidRs

/-! ### Claim theorems -/

/-- C4: `version` is determined by the top 4 bits of byte 6, MSB first
(for a byte `b < 256` that pattern is the number `b / 16`), through the
fixed table 0 to Nil, 1 to Time, 2 to Dce, 3 to Md5, 4 to Random, 5 to
Sha1; every one of the other ten patterns lands in the panic arm of the
source (`none` here, the fatal, non-resumable fault), so an unrecognized
pattern is never silently reported as a named version. -/
theorem c4_version_table (u : List Nat) (h : u.getD 6 0 < 256) :
    version u = versionSpecTable (u.getD 6 0 / 16) :=
  versionOfByte_fin ⟨u.getD 6 0, h⟩

/-- C4 witness: a UUID whose byte 6 is 111 (0x6F, pattern 6, one of the
ten unrecognized patterns) instantiates the theorem; there `version`
evaluates to `none`, the modelled panic. -/
theorem c4_version_table_witness :
    verInput.getD 6 0 < 256 ∧ version verInput = versionSpecTable (verInput.getD 6 0 / 16) :=
  ⟨by decide, c4_version_table verInput (by decide)⟩

/-- C8: `variant` is total, returning one of the four named variants for
every byte 8 value, determined by the top 3 bits of byte 8, MSB first (the
number `b / 32` for `b < 256`): pattern 7 (111) is Reserved, 6 (110) is
Microsoft, 4 and 5 (10x) are Rfc4122, and 0 through 3 (0xx) are Ncs. -/
theorem c8_variant_total (u : List Nat) (h : u.getD 8 0 < 256) :
    variant u = variantSpecTable (u.getD 8 0 / 32) :=
  variantOfByte_fin ⟨u.getD 8 0, h⟩

/-- C8 witness: byte 8 equal to 255 (pattern 111) classifies as Reserved. -/
theorem c8_variant_total_witness :
    varInput.getD 8 0 < 256 ∧ variant varInput = variantSpecTable (varInput.getD 8 0 / 32) :=
  ⟨by decide, c8_variant_total varInput (by decide)⟩

/-- C6: the mixed-endian transform is an involution on 16-byte sequences
(`from_bytes_me` after `to_bytes_me` is the identity), `to_bytes_me`
reverses exactly the byte ranges [0,4), [4,6) and [6,8), and it leaves the
bytes [8,16) untouched. -/
theorem c6_mixed_endian_involution (u : List Nat) (h : u.length = 16) :
    from_bytes_me (to_bytes_me u) = u ∧
    (to_bytes_me u).take 4 = (u.take 4).reverse ∧
    ((to_bytes_me u).drop 4).take 2 = ((u.drop 4).take 2).reverse ∧
    ((to_bytes_me u).drop 6).take 2 = ((u.drop 6).take 2).reverse ∧
    (to_bytes_me u).drop 8 = u.drop 8 := by
  obtain ⟨a0, a1, a2, a3, a4, a5, a6, a7, a8, a9, a10, a11, a12, a13, a14, a15, rfl⟩ :=
    len16_decomp u h
  exact ⟨rfl, rfl, rfl, rfl, rfl⟩

/-- C6 witness: the involution and range-reversal facts at the concrete
test bytes of the crate. -/
theorem c6_witness :
    rawBytes.length = 16 ∧
    (from_bytes_me (to_bytes_me rawBytes) = rawBytes ∧
    (to_bytes_me rawBytes).take 4 = (rawBytes.take 4).reverse ∧
    ((to_bytes_me rawBytes).drop 4).take 2 = ((rawBytes.drop 4).take 2).reverse ∧
    ((to_bytes_me rawBytes).drop 6).take 2 = ((rawBytes.drop 6).take 2).reverse ∧
    (to_bytes_me rawBytes).drop 8 = rawBytes.drop 8) :=
  ⟨by decide, c6_mixed_endian_involution rawBytes (by decide)⟩

/-- C5: for every 16-byte random input, `new_v4` yields version Random and
variant Rfc4122: byte 8 becomes its low six bits plus 128 (the `10xxxxxx`
pattern), byte 6 becomes its low four bits plus 64 (the `0100` pattern),
and every other part of the input (bytes 0 through 5, byte 7, bytes 9
through 15, and the low bits of bytes 6 and 8 inside the two equations) is
left unchanged. -/
theorem c5_new_v4_invariants (r : List Nat) (h : r.length = 16) :
    version (new_v4 r) = some Version.Random ∧
    variant (new_v4 r) = Variant.Rfc4122 ∧
    (new_v4 r).getD 8 0 = r.getD 8 0 % 64 + 128 ∧
    (new_v4 r).getD 6 0 = r.getD 6 0 % 16 + 64 ∧
    (new_v4 r).take 6 = r.take 6 ∧
    (new_v4 r).getD 7 0 = r.getD 7 0 ∧
    (new_v4 r).drop 9 = r.drop 9 ∧
    (new_v4 r).length = 16 := by
  obtain ⟨a0, a1, a2, a3, a4, a5, a6, a7, a8, a9, a10, a11, a12, a13, a14, a15, rfl⟩ :=
    len16_decomp r h
  refine ⟨?_, ?_, rfl, rfl, rfl, rfl, rfl, rfl⟩
  · exact versionOfByte_v4 ⟨a6 % 16, Nat.mod_lt _ (by omega)⟩
  · exact variantOfByte_v4 ⟨a8 % 64, Nat.mod_lt _ (by omega)⟩

/-- C5 witness: the generator invariants at the all-255 random draw. -/
theorem c5_witness :
    allFF.length = 16 ∧
    (version (new_v4 allFF) = some Version.Random ∧
    variant (new_v4 allFF) = Variant.Rfc4122 ∧
    (new_v4 allFF).getD 8 0 = allFF.getD 8 0 % 64 + 128 ∧
    (new_v4 allFF).getD 6 0 = allFF.getD 6 0 % 16 + 64 ∧
    (new_v4 allFF).take 6 = allFF.take 6 ∧
    (new_v4 allFF).getD 7 0 = allFF.getD 7 0 ∧
    (new_v4 allFF).drop 9 = allFF.drop 9 ∧
    (new_v4 allFF).length = 16) :=
  ⟨by decide, c5_new_v4_invariants allFF (by decide)⟩

/-- C1 (code bug evidence): the text round trip fails on the nil
identifier.  Formatting nil into a sufficiently large zeroed buffer
produces the unpadded text `0-0-0-00-0` followed by the untouched tail of
the buffer (because `to_string` prints each field with `{:x}`, which drops
leading zeros, and returns a view over the whole buffer), and `from_str`
rejects that text, in both canonical and URN forms; the claim requires
`parse(format(u)) = u`. -/
theorem c1_text_roundtrip_fails_on_nil :
    to_string uuidNil (List.replicate 36 0) = some nilCanonOut ∧
    fromStrRs nilCanonOut = ParseOut.err ∧
    to_urn uuidNil (List.replicate 45 0) = some nilUrnOut ∧
    fromStrRs nilUrnOut = ParseOut.err := by decide

/-- C2 (code bug evidence): `to_string` neither zero-pads nor returns a
view of exactly 36 characters.  On the nil identifier only the 10 bytes
`0-0-0-00-0` are written (so time_low is NOT rendered as 8 hex digits and
a zero node is NOT rendered as twelve zeros), and on a 45-byte buffer the
returned view spans all 45 bytes rather than the written region. -/
theorem c2_to_string_not_fixed_width :
    to_string uuidNil (List.replicate 36 0) = some (nilWritten ++ List.replicate 26 0) ∧
    nilWritten.length = 10 ∧
    to_string rawBytes (List.replicate 45 0) = some (rawCanon ++ List.replicate 9 0) ∧
    (rawCanon ++ List.replicate 9 0).length = 45 := by decide

/-- C3 (code bug evidence): parsing can panic.  `c3BadInput` is a valid
45-byte UTF-8 string whose byte 9 is a continuation byte; `from_str`
unconditionally slices off the first 9 bytes of any 45-byte input, and
slicing a `&str` at a non char boundary panics.  The concrete scenario of
the claim does hold: `not-a-uuid` is a plain parse failure. -/
theorem c3_from_str_panics_on_multibyte :
    validUtf8 c3BadInput = true ∧ c3BadInput.length = 45 ∧
    fromStrRs c3BadInput = ParseOut.panic ∧
    fromStrRs notAUuid = ParseOut.err := by decide

/-- C7 counterexample: the first group of `plusInput` is `+662aa7c`, whose
leading byte 43 (`+`) is outside `[0-9a-fA-F]`, yet parsing succeeds,
because `from_str_radix` accepts an optional leading sign.  This refutes
the claim that any character outside `[0-9a-fA-F]` within a group causes a
parse failure. -/
theorem c7_plus_sign_counterexample :
    (splitDash plusInput).getD 0 [] = [43, 54, 54, 50, 97, 97, 55, 99] ∧
    hexVal 43 = none ∧
    fromStrRs plusInput = ParseOut.ok plusParsed := by decide

/-- C7 amended: for every 36-byte input accepted for group processing, a
group byte outside `[0-9a-fA-F]` causes a parse failure whenever it is not
a leading `+` of its group; and hex digits are accepted case-insensitively
(each uppercase letter A through F and its lowercase counterpart carry the
same digit value). -/
theorem c7_amended :
    (∀ s : List Nat, s.length = 36 → ∀ g ∈ splitDash s, ∀ i < g.length,
      hexVal (g.getD i 0) = none → (i ≠ 0 ∨ g.getD i 0 ≠ 43) →
      fromStrRs s = ParseOut.err) ∧
    (∀ c, 65 ≤ c → c ≤ 70 → hexVal c = some (c - 55) ∧ hexVal (c + 32) = some (c - 55)) := by
  constructor
  · intro s hlen g hg i hi hbad hexc
    rw [fromStrRs_eq_body_of_len36 s hlen]
    apply fromStrBody_err_of_bad s hlen
    refine ⟨g, hg, ?_⟩
    have h45 : 45 ∉ g := sep_not_in_splitDash s g hg
    rintro (⟨hl, hne⟩ | ⟨hl, hne⟩ | ⟨hl, hne⟩) <;>
      exact hne (fromStrRadix16_none_of_bad _ g h45 i hi hbad hexc)
  · intro c h1 h2
    constructor
    · unfold hexVal
      rw [if_neg (by omega), if_neg (by omega), if_pos (by omega)]
    · unfold hexVal
      rw [if_neg (by omega), if_pos (by omega)]
      have h3 : c + 32 - 87 = c - 55 := by omega
      rw [h3]

/-- C7 witness: a 36-byte input whose first group carries the non-hex,
non-sign byte 103 (`g`) at index 6 is rejected, and the hex digit 15 is
accepted as both `F` (70) and `f` (102). -/
theorem c7_amended_witness :
    fromStrRs badChar36 = ParseOut.err ∧
    (hexVal 70 = some 15 ∧ hexVal 102 = some 15) := by
  constructor
  · exact c7_amended.1 badChar36 (by decide) [54, 54, 50, 97, 97, 55, 103, 55] (by decide)
      6 (by decide) (by decide) (by decide)
  · exact c7_amended.2 70 (by omega) (by omega)

/-- C9: an input whose byte length is neither 36 nor 45 (so the text after
the conditional URN strip is not exactly 36 bytes) is a parse failure, and
a 36-byte input containing a dash group whose length is not 8, 4 or 12 is
a parse failure (never a success and never a panic). -/
theorem c9_length_checks :
    (∀ s : List Nat, s.length ≠ 36 → s.length ≠ 45 → fromStrRs s = ParseOut.err) ∧
    (∀ s : List Nat, s.length = 36 →
      (∃ g ∈ splitDash s, g.length ≠ 8 ∧ g.length ≠ 4 ∧ g.length ≠ 12) →
      fromStrRs s = ParseOut.err) := by
  constructor
  · intro s h36 h45
    unfold fromStrRs
    rw [if_neg h45]
    unfold fromStrBody
    rw [if_pos h36]
  · intro s h36 hex
    obtain ⟨g, hg, h8, h4, h12⟩ := hex
    rw [fromStrRs_eq_body_of_len36 s h36]
    apply fromStrBody_err_of_bad s h36
    exact ⟨g, hg, by rintro (⟨hl, _⟩ | ⟨hl, _⟩ | ⟨hl, _⟩) <;> omega⟩

/-- C9 witness: the one-byte input `0` fails on length, and the 36-byte
input with a 7-byte first group fails on group length. -/
theorem c9_length_checks_witness :
    fromStrRs [48] = ParseOut.err ∧ fromStrRs badLen36 = ParseOut.err := by
  constructor
  · exact c9_length_checks.1 [48] (by decide) (by decide)
  · exact c9_length_checks.2 badLen36 (by decide)
      ⟨[54, 54, 50, 97, 97, 55, 99], by decide, by decide, by decide, by decide⟩

/-- C10: on every 45-byte ASCII input the parser strips the first 9 bytes
purely by position, never comparing them with the URN header: the result
is exactly the canonical-form parse of the remaining 36 bytes, whatever
the first 9 bytes hold. -/
theorem c10_urn_stripped_by_position (s : List Nat) (h45 : s.length = 45)
    (hascii : ∀ c ∈ s, c < 128) :
    fromStrRs s = fromStrBody (s.drop 9) := by
  have h9 : s.getD 9 0 < 128 := hascii _ (getD_mem_of_lt s 9 (by omega))
  unfold fromStrRs
  rw [if_pos h45, if_neg (by omega : ¬ (128 ≤ s.getD 9 0 ∧ s.getD 9 0 < 192))]

/-- C10 witness: nine `?` bytes before a canonical text are stripped just
like the URN header would be. -/
theorem c10_witness :
    junkUrn.length = 45 ∧ fromStrRs junkUrn = fromStrBody (junkUrn.drop 9) :=
  ⟨by decide, c10_urn_stripped_by_position junkUrn (by decide) (by decide)⟩

end UuidRs
